import Mathlib

/-!
# Verification of `django-fluent-contents` model and admin helpers

Shallow embedding of the algorithmic parts of the repository:

* `fluent_contents/models/__init__.py`:
  `PlaceholderData.__init__`, `ContentItemOutput` (pickling and
  `_insert_media`), `ContentItemTree.from_list`, `ImmutableMedia`.
* `fluent_contents/admin/contentitems.py`:
  `BaseContentItemFormSet` (`get_form_class`, `save_new`, `save_existing`,
  `_set_placeholder_id`), `get_content_item_inlines`,
  `create_inline_for_plugin`.

Python dictionaries are embedded as association lists (with distinct keys
where the source guarantees it), Python lists as Lean lists, `None` as
`Option.none`, and code paths that raise exceptions as `Except` values.
All operations in the embedded fragment construct fresh objects rather than
mutating their arguments (the source assigns only to freshly created
objects such as `combined = Media()`), so a pure embedding is faithful.
-/

/-! ## The media model

The repository runs against Django 1.x (`django.utils.six`,
`django.utils.lru_cache`).  `django.forms.Media` of that era keeps a dict
`_css` mapping a medium name to a list of paths, and a list `_js` of paths;
`add_css`/`add_js` append paths that are not yet present, and `__add__`
builds a fresh `Media()` and feeds it first `self`'s and then `other`'s
attributes.  `ImmutableMedia` (models/__init__.py lines 219-249) overrides
`add_css`/`add_js` to raise `RuntimeError` and overrides `__add__` to
return `other` itself when `other` is the shared
`ImmutableMedia.empty_instance`, and otherwise a fresh plain `Media` whose
`_css`/`_js` are shallow copies of `other`'s.

Python dispatches `a + b` on the class of `a`, and the identity test
`other is ImmutableMedia.empty_instance` depends on object identity, so the
embedded `Media` value carries two flags: `isImmutable` (the object is an
`ImmutableMedia` instance) and `isEmptyInstance` (the object is the one
shared `ImmutableMedia.empty_instance`). -/

structure Media where
  css : List (String × List String)
  js : List String
  isImmutable : Bool
  isEmptyInstance : Bool
deriving DecidableEq

/-- The shared `ImmutableMedia.empty_instance` singleton
(`ImmutableMedia.empty_instance = ImmutableMedia()`). -/
def emptyInstance : Media := ⟨[], [], true, true⟩

/-- A fresh plain `Media()` with no arguments. -/
def plainEmptyMedia : Media := ⟨[], [], false, false⟩

/-- One step of Django's `Media.add_css`: record `path` under `medium`,
appending it to the first entry for `medium` unless already present
(`if path not in self._css.setdefault(medium, []): self._css[medium].append(path)`). -/
def addCssPath : List (String × List String) → String → String → List (String × List String)
  | [], medium, path => [(medium, [path])]
  | (k, ps) :: rest, medium, path =>
    if k = medium then
      (if path ∈ ps then (k, ps) :: rest else (k, ps ++ [path]) :: rest)
    else
      (k, ps) :: addCssPath rest medium path

/-- Django's `Media.add_css(data)`: for each `(medium, paths)` entry of
`data`, add every path in order. -/
def addCssData (cur : List (String × List String)) (data : List (String × List String)) :
    List (String × List String) :=
  data.foldl (fun acc e => e.2.foldl (fun acc2 p => addCssPath acc2 e.1 p) acc) cur

/-- Django's `Media.add_js(data)`: append each path not already present. -/
def addJsList (cur data : List String) : List String :=
  data.foldl (fun acc p => if p ∈ acc then acc else acc ++ [p]) cur

/-- Django's plain `Media.__add__`: `combined = Media()`, then
`combined.add_css(self._css); combined.add_css(other._css)` and the same
for `_js` (`self` first, then `other`).  The result is a fresh mutable
`Media`. -/
def mediaAdd (a b : Media) : Media :=
  { css := addCssData (addCssData [] a.css) b.css
    js := addJsList (addJsList [] a.js) b.js
    isImmutable := false
    isEmptyInstance := false }

/-- `ImmutableMedia.__add__(self, other)` (models/__init__.py lines
237-246): return `other` itself when it is the shared empty instance,
otherwise a fresh plain `Media` whose `_css`/`_js` are `other._css.copy()`
and `other._js[:]`.  `self`'s files are not consulted. -/
def immutableAdd (_a b : Media) : Media :=
  if b.isEmptyInstance then b
  else { css := b.css, js := b.js, isImmutable := false, isEmptyInstance := false }

/-- Python's `a + b` on media objects: dispatches on the class of `a`
(`ImmutableMedia.__add__` when `a` is an `ImmutableMedia`, otherwise the
base `Media.__add__`). -/
def pyAdd (a b : Media) : Media :=
  if a.isImmutable then immutableAdd a b else mediaAdd a b

/-- `ImmutableMedia.__init__(**kwargs)`: starts from empty `_css`/`_js` and
feeds the `css`/`js` keyword arguments through the *base class*
`Media.add_css` / `Media.add_js` (the overridden raising versions are
bypassed via the explicit `Media.add_css(self, ...)` call).  The result is
an `ImmutableMedia` instance distinct from the shared empty instance. -/
def immutableMediaInit (css : List (String × List String)) (js : List String) : Media :=
  { css := addCssData [] css
    js := addJsList [] js
    isImmutable := true
    isEmptyInstance := false }

/-- `add_css` as dispatched on an instance: `ImmutableMedia.add_css` always
raises `RuntimeError("Immutable media object")`; the base class version
merges the data in. -/
def mediaAddCss (self : Media) (data : List (String × List String)) : Except String Media :=
  if self.isImmutable then Except.error "Immutable media object"
  else Except.ok { self with css := addCssData self.css data }

/-- `add_js` as dispatched on an instance: `ImmutableMedia.add_js` always
raises `RuntimeError("Immutable media object")`. -/
def mediaAddJs (self : Media) (data : List String) : Except String Media :=
  if self.isImmutable then Except.error "Immutable media object"
  else Except.ok { self with js := addJsList self.js data }

/-- `path` is registered for `medium` somewhere in the css structure. -/
def cssHas (css : List (String × List String)) (medium path : String) : Prop :=
  ∃ e ∈ css, e.1 = medium ∧ path ∈ e.2

instance (css : List (String × List String)) (medium path : String) :
    Decidable (cssHas css medium path) :=
  List.decidableBEx _ css

/-! ## `ContentItemOutput` (models/__init__.py lines 101-164) -/

/-- `cache_timeout` values: either the `DEFAULT_TIMEOUT` sentinel imported
from Django's cache backend, or an explicit number of seconds. -/
inductive CacheTimeout where
  | defaultTimeout : CacheTimeout
  | seconds : Int → CacheTimeout
deriving DecidableEq

/-- The state of a `ContentItemOutput` object.  `html` is stored after
`conditional_escape`, i.e. it is a plain (safe) string. -/
structure ContentItemOutput where
  html : String
  media : Media
  cacheable : Bool
  cache_timeout : CacheTimeout
deriving DecidableEq

/-- `ContentItemOutput.__getstate__`:
`return (str(self.html), self.media._css, self.media._js)`. -/
def getstate (o : ContentItemOutput) : String × List (String × List String) × List String :=
  (o.html, o.media.css, o.media.js)

/-- `ContentItemOutput.__setstate__` (models/__init__.py lines 140-153):
restore `html` via `mark_safe`, force `cacheable = True` and
`cache_timeout = DEFAULT_TIMEOUT`, and rebuild the media: the shared
`ImmutableMedia.empty_instance` when both `css` and `js` are empty (falsy),
otherwise a fresh `ImmutableMedia()` whose `_css`/`_js` are assigned
directly. -/
def setstate (state : String × List (String × List String) × List String) :
    ContentItemOutput :=
  { html := state.1
    cacheable := true
    cache_timeout := CacheTimeout.defaultTimeout
    media :=
      if state.2.1 = [] ∧ state.2.2 = [] then emptyInstance
      else { css := state.2.1, js := state.2.2, isImmutable := true, isEmptyInstance := false } }

/-- `ContentItemOutput._insert_media(media)` (models/__init__.py lines
155-164): when the current media is the shared empty instance, replace it
by `Media() + media`; otherwise replace it by `media + self.media`
(dispatching on `media`'s class). -/
def insert_media (o : ContentItemOutput) (media : Media) : ContentItemOutput :=
  if o.media.isEmptyInstance then { o with media := pyAdd plainEmptyMedia media }
  else { o with media := pyAdd media o.media }

/-! ## `PlaceholderData` (models/__init__.py lines 46-98) -/

/-- `PlaceholderData.ROLE_ALIASES`: maps the alias strings to the
`Placeholder` role constants. -/
def ROLE_ALIASES : List (String × String) := [("main", "m"), ("sidebar", "s"), ("related", "r")]

/-- Modelled from the spec: `Placeholder.MAIN` comes from
`fluent_contents.models.db`, which is not part of the sources; the role
constants are the single-character codes the aliases `'main'`, `'sidebar'`
and `'related'` resolve to. -/
def placeholderMain : String := "m"

/-- Modelled from the spec: `_ALLOWED_ROLES = list(dict(Placeholder.ROLES).keys())`
with `Placeholder.ROLES` declared in `fluent_contents.models.db`, which is
not part of the sources; the allowed roles are main, sidebar and related. -/
def allowedRoles : List String := ["m", "s", "r"]

/-- The fields of a successfully constructed `PlaceholderData`. -/
structure PlaceholderData where
  slot : String
  title : String
  role : String
  fallback_language : Option String
deriving DecidableEq

/-- `self.role = self.ROLE_ALIASES.get(role, role or Placeholder.MAIN)`:
look the given role up among the aliases; when it is no alias, keep it,
except that a falsy role (absent or empty) defaults to `Placeholder.MAIN`.
(`None` and `''` are not alias keys, so the `.get` default applies.) -/
def resolveRole (role : Option String) : String :=
  match role with
  | none => placeholderMain
  | some r =>
    match ROLE_ALIASES.lookup r with
    | some v => v
    | none => if r = "" then placeholderMain else r

/-- `PlaceholderData.__init__(slot, title, role, fallback_language)`
(models/__init__.py lines 57-71): raise `ValueError` for a falsy slot;
default the title to the slot (`title or self.slot`), resolve the role,
normalise a falsy fallback language to `None`, and finally raise
`ValueError` when the resolved role is not an allowed role. -/
def placeholderDataInit (slot : String) (title : Option String) (role : Option String)
    (fallback_language : Option String) : Except String PlaceholderData :=
  if slot = "" then Except.error "Slot not defined for placeholder!"
  else
    let t := match title with
      | none => slot
      | some s => if s = "" then slot else s
    let r := resolveRole role
    let fl := match fallback_language with
      | none => none
      | some s => if s = "" then none else some s
    if r ∈ allowedRoles then Except.ok ⟨slot, t, r, fl⟩
    else Except.error "Invalid role"

/-! ## `ContentItemTree` (models/__init__.py lines 167-209)

A content item enters `from_list` with an `id`, a `parent_item_id` and a
`sort_order`; `_set_children` attaches a sorted child list to an item
object.  Items are embedded as immutable records and the `_set_children`
side effects are recorded as an explicit list of
`(parent id, sorted children)` assignments. -/

structure RawItem where
  id : Nat
  parent_item_id : Option Nat
  sort_order : Int
deriving DecidableEq

/-- The tree object: the roots (the list contents) plus `flat_items`
(`None` unless set by `from_list` on a non-empty input).  The
`placeholder`/`parent_item` bookkeeping fields play no part in the claims
and are omitted. -/
structure ContentItemTree where
  items : List RawItem
  flat_items : Option (List RawItem)
deriving DecidableEq

/-- Insert `x` into an already sorted list, before the first element whose
`sort_order` is not smaller — a stable ascending insertion, matching the
stable ascending `children.sort(key=lambda item: item.sort_order)`. -/
def insertSorted (x : RawItem) : List RawItem → List RawItem
  | [] => [x]
  | y :: ys => if y.sort_order < x.sort_order then y :: insertSorted x ys else x :: y :: ys

/-- Stable ascending sort by `sort_order`
(`list.sort(key=lambda item: item.sort_order)`). -/
def sortItems : List RawItem → List RawItem
  | [] => []
  | x :: xs => insertSorted x (sortItems xs)

/-- One step of `parents.setdefault(item.parent_item_id, []).append(item)`
on the ordered dict `parents`: append to the existing group, or add a new
group at the end. -/
def addToGroup (groups : List (Option Nat × List RawItem)) (k : Option Nat) (it : RawItem) :
    List (Option Nat × List RawItem) :=
  match groups with
  | [] => [(k, [it])]
  | (k', its) :: rest =>
    if k' = k then (k', its ++ [it]) :: rest
    else (k', its) :: addToGroup rest k it

/-- The `parents` ordered dict after the first loop of `from_list`:
items grouped by `parent_item_id`, groups ordered by first appearance. -/
def groupByParent (items : List RawItem) : List (Option Nat × List RawItem) :=
  items.foldl (fun acc it => addToGroup acc it.parent_item_id it) []

/-- The `lookup` dict built by the first loop (`lookup[item.id] = item`;
a later item with the same id overwrites an earlier one). -/
def idLookup (items : List RawItem) (i : Nat) : Option RawItem :=
  items.foldl (fun acc it => if it.id = i then some it else acc) none

/-- The second loop of `from_list`: for every group whose key is neither
`None` nor `top_parent_id`, look the key up in the `lookup` dict (a missing
key raises `KeyError`), sort the group ascending by `sort_order` and attach
it via `_set_children` to the found item.  The returned list records the
`_set_children` assignments as `(parent id, sorted children)` pairs, in
iteration order. -/
def attachChildren (items : List RawItem) (top : Option Nat) :
    List (Option Nat × List RawItem) → Except String (List (Nat × List RawItem))
  | [] => Except.ok []
  | (pid, children) :: rest =>
    match pid with
    | none => attachChildren items top rest
    | some p =>
      if some p = top then attachChildren items top rest
      else
        match idLookup items p with
        | none => Except.error "KeyError: lookup[parent_id]"
        | some _ =>
          match attachChildren items top rest with
          | Except.error e => Except.error e
          | Except.ok asg => Except.ok ((p, sortItems children) :: asg)

/-- `ContentItemTree.from_list(items, top_parent_id)` (models/__init__.py
lines 183-209).  An empty input yields an empty tree (`flat_items` left
`None`).  Otherwise the items are grouped by `parent_item_id`, each
non-`None`, non-top group is sorted and attached to its parent item
(`KeyError` when the parent id is not an item id), and the group keyed by
`top_parent_id` (`KeyError` when there is none), sorted ascending by
`sort_order`, becomes the roots, with `flat_items` the full input list.
The result pairs the tree with the recorded `_set_children`
assignments. -/
def from_list (items : List RawItem) (top : Option Nat) :
    Except String (ContentItemTree × List (Nat × List RawItem)) :=
  match items with
  | [] => Except.ok (⟨[], none⟩, [])
  | _ =>
    let parents := groupByParent items
    match attachChildren items top parents with
    | Except.error e => Except.error e
    | Except.ok asg =>
      match parents.lookup top with
      | none => Except.error "KeyError: parents[top_parent_id]"
      | some roots => Except.ok (⟨sortItems roots, some items⟩, asg)

/-- The precondition under which `from_list` performs no failing dict
lookup: the list is empty, or it contains an item whose `parent_item_id`
is the requested top id and every `parent_item_id` that is neither `None`
nor the top id is the id of some item of the list. -/
def FromListWF (items : List RawItem) (top : Option Nat) : Prop :=
  items = [] ∨
    ((∃ it ∈ items, it.parent_item_id = top) ∧
      ∀ it ∈ items, ∀ p : Nat, it.parent_item_id = some p → some p ≠ top →
        ∃ it2 ∈ items, it2.id = p)

instance (items : List RawItem) (top : Option Nat) : Decidable (FromListWF items top) := by
  unfold FromListWF
  infer_instance

/-! ## `BaseContentItemFormSet` (admin/contentitems.py lines 26-119) -/

/-- The two `Placeholder` fields `_set_placeholder_id` reads: the primary
key and the slot name. -/
structure Placeholder where
  id : Nat
  slot : String
deriving DecidableEq

/-- The part of a bound form `_set_placeholder_id` works on:
`cleaned_data['placeholder_slot']`, `cleaned_data['placeholder']` and
`instance.placeholder` (whose id is `instance.placeholder_id`). -/
structure FormState where
  placeholder_slot : String
  cleaned_placeholder : Option Placeholder
  instance_placeholder : Option Placeholder
deriving DecidableEq

/-- The formset state `_set_placeholder_id` reads and writes: the parent
object's placeholders (the queryset behind
`Placeholder.objects.parent(self.instance)`), the `_placeholders_by_slot`
cache and the `_deleted_placeholders` ids. -/
structure FormsetState where
  parent_placeholders : List Placeholder
  placeholders_by_slot : List (String × Placeholder)
  deleted_placeholders : List Nat
deriving DecidableEq

/-- Django's `QuerySet.get(slot=...)`: exactly one match is returned;
no match raises `DoesNotExist`, several raise `MultipleObjectsReturned`. -/
def dbGetBySlot (ps : List Placeholder) (slot : String) : Except String Placeholder :=
  match ps.filter (fun p => p.slot = slot) with
  | [p] => Except.ok p
  | [] => Except.error "Placeholder.DoesNotExist"
  | _ => Except.error "Placeholder.MultipleObjectsReturned"

/-- The `desired_placeholder` fetch of `_set_placeholder_id` (lines
92-97): try the `_placeholders_by_slot` cache, else query the parent's
placeholders by slot and cache the result. -/
def resolveSlot (fs : FormsetState) (slot : String) :
    Except String (Placeholder × FormsetState) :=
  match fs.placeholders_by_slot.lookup slot with
  | some p => Except.ok (p, fs)
  | none =>
    match dbGetBySlot fs.parent_placeholders slot with
    | Except.error e => Except.error e
    | Except.ok p =>
      Except.ok (p, { fs with placeholders_by_slot := fs.placeholders_by_slot ++ [(slot, p)] })

/-- `form.instance.placeholder_id in self._deleted_placeholders`
(`None in (...)` is false). -/
def instanceInDeleted (f : FormState) (fs : FormsetState) : Bool :=
  match f.instance_placeholder with
  | none => false
  | some p => p.id ∈ fs.deleted_placeholders

/-- `BaseContentItemFormSet._set_placeholder_id(form)` (admin/
contentitems.py lines 85-105).  Nothing happens for a falsy slot.
Otherwise: when the selected placeholder is absent or has a different
slot, resolve the slot and assign the found placeholder to both
`cleaned_data['placeholder']` and `instance.placeholder`; when the
selected placeholder has the slot but `instance.placeholder_id` is among
the deleted placeholders, both are set to `None`; otherwise nothing
changes. -/
def set_placeholder_id (fs : FormsetState) (f : FormState) :
    Except String (FormState × FormsetState) :=
  if f.placeholder_slot = "" then Except.ok (f, fs)
  else
    if (match f.cleaned_placeholder with
        | none => true
        | some p => p.slot ≠ f.placeholder_slot : Bool) then
      match resolveSlot fs f.placeholder_slot with
      | Except.error e => Except.error e
      | Except.ok (p, fs2) =>
        Except.ok
          ({ f with cleaned_placeholder := some p, instance_placeholder := some p }, fs2)
    else
      if instanceInDeleted f fs then
        Except.ok ({ f with cleaned_placeholder := none, instance_placeholder := none }, fs)
      else Except.ok (f, fs)

/-- `BaseContentItemFormSet.save_new(form, commit)` (lines 59-78) calls
`_set_placeholder_id(form)` unconditionally before constructing and
(when `commit`) saving the instance; the placeholder-related state after
the call is exactly that of `_set_placeholder_id`. -/
def save_new (fs : FormsetState) (f : FormState) (_commit : Bool) :
    Except String (FormState × FormsetState) :=
  set_placeholder_id fs f

/-- `BaseContentItemFormSet.save_existing(form, instance, commit)` (lines
80-83): `_set_placeholder_id(form)` runs only when `commit` is true, then
`form.save(commit)` persists the instance. -/
def save_existing (fs : FormsetState) (f : FormState) (commit : Bool) :
    Except String (FormState × FormsetState) :=
  if commit then set_placeholder_id fs f else Except.ok (f, fs)

/-- `_placeholders_by_slot` cache consistency: each cached entry was
stored under its own slot and belongs to the parent's placeholders.  The
cache starts empty (`__init__`, line 43) and `_set_placeholder_id` only
adds entries satisfying this. -/
def CacheConsistent (fs : FormsetState) : Prop :=
  ∀ e ∈ fs.placeholders_by_slot, e.2.slot = e.1 ∧ e.2 ∈ fs.parent_placeholders

instance (fs : FormsetState) : Decidable (CacheConsistent fs) := by
  unfold CacheConsistent
  infer_instance

/-! ## `get_form_class` field reordering (admin/contentitems.py lines 45-57)

`form.base_fields` is an ordered mapping from field names to field
objects, embedded as an association list with distinct keys; field objects
are abstracted as `Nat` identifiers (only their identity matters).
`first_fields` is `list(ContentItemForm.base_fields.keys())`
(`ContentItemForm` lives in `fluent_contents.forms`, outside the provided
sources, so its key list is kept abstract). -/

/-- `get_form_class`'s reordering: `field_order = first_fields + [f for f
in form.base_fields.keys() if f not in first_fields]`, then the mapping is
rebuilt as `((k, base_fields[k]) for k in field_order)`; a key of
`first_fields` missing from `base_fields` would raise `KeyError` (`none`
here). -/
def get_form_class (first_fields : List String) (base_fields : List (String × Nat)) :
    Option (List (String × Nat)) :=
  let field_order :=
    first_fields ++ (base_fields.map Prod.fst).filter (fun f => f ∉ first_fields)
  field_order.mapM (fun k => (base_fields.lookup k).map (fun v => (k, v)))

/-! ## `get_content_item_inlines` (admin/contentitems.py lines 206-272) -/

/-- The plugin attributes `get_content_item_admin_options` reads. -/
structure Plugin where
  verbose_name : String
  model : String
  type_name : String
  admin_form_template : String
  admin_init_template : String
  fieldsets : List String
deriving DecidableEq

/-- A generated child inline class: the attribute dict built by
`get_content_item_admin_options` (the conditional `COPY_FIELDS` transfers
carry admin-only settings and are omitted; `__module__` is metadata). -/
structure ChildInline where
  model : String
  name : String
  plugin : Plugin
  type_name : String
  cp_admin_form_template : String
  cp_admin_init_template : String
  extra_fieldsets : List String
deriving DecidableEq

/-- `get_content_item_admin_options(plugin)` (lines 232-262): the
attribute dict for the generated inline/admin class. -/
def get_content_item_admin_options (p : Plugin) : ChildInline :=
  { model := p.model
    name := p.verbose_name
    plugin := p
    type_name := p.type_name
    cp_admin_form_template := p.admin_form_template
    cp_admin_init_template := p.admin_init_template
    extra_fieldsets := if p.fieldsets.isEmpty then [] else p.fieldsets }

/-- `create_inline_for_plugin(plugin, base)` (lines 265-272): a subclass
of the child base carrying the admin options (the `lru_cache` only caches
the class object). -/
def create_inline_for_plugin (p : Plugin) : ChildInline :=
  get_content_item_admin_options p

/-- The generated parent inline class: `model = ContentItem` (represented
by its name), the `plugins` list and the generated `child_inlines`. -/
structure ParentInline where
  model : String
  plugins : List Plugin
  child_inlines : List ChildInline
deriving DecidableEq

/-- `get_content_item_inlines(plugins)` (lines 206-229): default the
plugin list to the full registered pool when `None`, generate one child
inline per plugin, and return a single parent inline class configured with
the model, the plugins and the child inlines. -/
def get_content_item_inlines (pool : List Plugin) (plugins : Option (List Plugin)) :
    List ParentInline :=
  let ps := match plugins with
    | none => pool
    | some l => l
  [{ model := "ContentItem", plugins := ps, child_inlines := ps.map create_inline_for_plugin }]

/-! ### Basic lemmas about the Django media primitives -/

theorem cssHas_addCssPath (cur : List (String × List String)) (m p m' p' : String) :
    cssHas cur m' p' → cssHas (addCssPath cur m p) m' p' := by
  intro h
  induction cur with
  | nil => simp [cssHas] at h
  | cons e rest ih =>
    obtain ⟨k, ps⟩ := e
    obtain ⟨f, hmem, hf1, hf2⟩ := h
    simp only [addCssPath]
    rcases List.mem_cons.mp hmem with heq | hmem'
    · subst heq
      simp only at hf1 hf2
      by_cases hk : k = m
      · subst hk
        by_cases hpin : p ∈ ps
        · simp only [if_pos hpin, if_pos rfl]
          exact ⟨(k, ps), List.mem_cons_self _ _, hf1, hf2⟩
        · simp only [if_neg hpin, if_pos rfl]
          exact ⟨(k, ps ++ [p]), List.mem_cons_self _ _, hf1, List.mem_append_left _ hf2⟩
      · simp only [if_neg hk]
        exact ⟨(k, ps), List.mem_cons_self _ _, hf1, hf2⟩
    · by_cases hk : k = m
      · subst hk
        by_cases hpin : p ∈ ps
        · simp only [if_pos hpin, if_pos rfl]
          exact ⟨f, List.mem_cons_of_mem _ hmem', hf1, hf2⟩
        · simp only [if_neg hpin, if_pos rfl]
          exact ⟨f, List.mem_cons_of_mem _ hmem', hf1, hf2⟩
      · simp only [if_neg hk]
        obtain ⟨r, hr, hr1, hr2⟩ := ih ⟨f, hmem', hf1, hf2⟩
        exact ⟨r, List.mem_cons_of_mem _ hr, hr1, hr2⟩

theorem cssHas_addCssPath_self (cur : List (String × List String)) (m p : String) :
    cssHas (addCssPath cur m p) m p := by
  induction cur with
  | nil => exact ⟨(m, [p]), by simp [addCssPath], rfl, by simp⟩
  | cons e rest ih =>
    obtain ⟨k, ps⟩ := e
    simp only [addCssPath]
    by_cases hk : k = m
    · subst hk
      by_cases hpin : p ∈ ps
      · simp only [if_pos hpin, if_pos rfl]
        exact ⟨(k, ps), by simp, rfl, hpin⟩
      · simp only [if_neg hpin, if_pos rfl]
        exact ⟨(k, ps ++ [p]), by simp, rfl, by simp⟩
    · simp only [if_neg hk]
      obtain ⟨r, hr, hr1, hr2⟩ := ih
      exact ⟨r, List.mem_cons_of_mem _ hr, hr1, hr2⟩

theorem mem_addJsList (cur data : List String) (x : String) :
    x ∈ addJsList cur data ↔ x ∈ cur ∨ x ∈ data := by
  induction data generalizing cur with
  | nil => simp [addJsList]
  | cons d ds ih =>
    show x ∈ addJsList (if d ∈ cur then cur else cur ++ [d]) ds ↔ _
    rw [ih]
    by_cases hd : d ∈ cur
    · simp only [if_pos hd, List.mem_cons]
      constructor
      · rintro (h | h)
        · exact Or.inl h
        · exact Or.inr (Or.inr h)
      · rintro (h | h | h)
        · exact Or.inl h
        · exact Or.inl (h ▸ hd)
        · exact Or.inr h
    · simp only [if_neg hd, List.mem_append, List.mem_singleton, List.mem_cons]
      tauto

theorem cssHas_foldPaths (cur : List (String × List String)) (medium : String)
    (paths : List String) (m p : String) :
    cssHas cur m p →
      cssHas (paths.foldl (fun acc q => addCssPath acc medium q) cur) m p := by
  induction paths generalizing cur with
  | nil => exact fun h => h
  | cons q qs ih =>
    intro h
    exact ih (addCssPath cur medium q) (cssHas_addCssPath cur medium q m p h)

theorem cssHas_foldPaths_self (cur : List (String × List String)) (medium : String)
    (paths : List String) (p : String) (hp : p ∈ paths) :
    cssHas (paths.foldl (fun acc q => addCssPath acc medium q) cur) medium p := by
  induction paths generalizing cur with
  | nil => simp at hp
  | cons q qs ih =>
    rcases List.mem_cons.mp hp with heq | hmem
    · subst heq
      exact cssHas_foldPaths (addCssPath cur medium p) medium qs medium p
        (cssHas_addCssPath_self cur medium p)
    · exact ih (addCssPath cur medium q) hmem

theorem cssHas_addCssData_left (cur data : List (String × List String)) (m p : String) :
    cssHas cur m p → cssHas (addCssData cur data) m p := by
  induction data generalizing cur with
  | nil => exact fun h => h
  | cons e es ih =>
    intro h
    exact ih _ (cssHas_foldPaths cur e.1 e.2 m p h)

theorem cssHas_addCssData_right (cur data : List (String × List String)) (m p : String) :
    cssHas data m p → cssHas (addCssData cur data) m p := by
  induction data generalizing cur with
  | nil => intro h; simp [cssHas] at h
  | cons e es ih =>
    intro h
    obtain ⟨f, hmem, hf1, hf2⟩ := h
    rcases List.mem_cons.mp hmem with heq | hmem'
    · subst heq
      subst hf1
      exact cssHas_addCssData_left _ es f.1 p (cssHas_foldPaths_self cur f.1 f.2 p hf2)
    · exact ih _ ⟨f, hmem', hf1, hf2⟩

theorem mediaAdd_cssHas (a b : Media) (m p : String)
    (h : cssHas a.css m p ∨ cssHas b.css m p) : cssHas (mediaAdd a b).css m p := by
  rcases h with h | h
  · exact cssHas_addCssData_left _ b.css m p (cssHas_addCssData_right [] a.css m p h)
  · exact cssHas_addCssData_right _ b.css m p h

theorem mediaAdd_js (a b : Media) (x : String) (h : x ∈ a.js ∨ x ∈ b.js) :
    x ∈ (mediaAdd a b).js := by
  show x ∈ addJsList (addJsList [] a.js) b.js
  rw [mem_addJsList, mem_addJsList]
  rcases h with h | h
  · exact Or.inl (Or.inr h)
  · exact Or.inr h

/-! ### Claim theorems about the media objects -/

/-- C6: every `ImmutableMedia` object is immutable after construction:
`add_css` and `add_js` raise `RuntimeError` for every argument, and
`__add__` returns either the shared empty instance (namely `other` itself,
when `other` is that instance) or a freshly constructed plain `Media`
holding copies of `other`'s `_css`/`_js`.  The source of `__add__` assigns
only to the fresh `combined` object (`other._css.copy()`, `other._js[:]`),
so neither operand's `_css` or `_js` is modified; the embedding is
accordingly a pure function of the operands. -/
theorem immutableMedia_is_immutable (a b : Media)
    (data_css : List (String × List String)) (data_js : List String)
    (ha : a.isImmutable = true) :
    mediaAddCss a data_css = Except.error "Immutable media object" ∧
    mediaAddJs a data_js = Except.error "Immutable media object" ∧
    (b.isEmptyInstance = true → pyAdd a b = b) ∧
    (b.isEmptyInstance = false →
      pyAdd a b = { css := b.css, js := b.js, isImmutable := false, isEmptyInstance := false }) := by
  refine ⟨?_, ?_, ?_, ?_⟩
  · simp [mediaAddCss, ha]
  · simp [mediaAddJs, ha]
  · intro hb
    simp [pyAdd, immutableAdd, ha, hb]
  · intro hb
    simp [pyAdd, immutableAdd, ha, hb]

/-- C6 witness: the shared empty instance behaves as stated on concrete
arguments. -/
theorem immutableMedia_is_immutable_witness :
    mediaAddCss emptyInstance [("all", ["x.css"])] = Except.error "Immutable media object" ∧
    mediaAddJs emptyInstance ["x.js"] = Except.error "Immutable media object" ∧
    (Media.mk [("all", ["b.css"])] ["b.js"] false false).isEmptyInstance = false ∧
    pyAdd emptyInstance (Media.mk [("all", ["b.css"])] ["b.js"] false false) =
      Media.mk [("all", ["b.css"])] ["b.js"] false false := by
  have h := immutableMedia_is_immutable emptyInstance
    (Media.mk [("all", ["b.css"])] ["b.js"] false false)
    [("all", ["x.css"])] ["x.js"] (by decide)
  exact ⟨h.1, h.2.1, by decide, h.2.2.2 (by decide)⟩

/-- A non-empty `ImmutableMedia` operand for the C2 counterexample:
`ImmutableMedia(css={'screen': ['a.css']}, js=['a.js'])`. -/
def c2A : Media := immutableMediaInit [("screen", ["a.css"])] ["a.js"]

/-- A plain `Media` operand for the C2 counterexample. -/
def c2B : Media := ⟨[("all", ["b.css"])], ["b.js"], false, false⟩

/-- C2 counterexample: for the `ImmutableMedia` `a = c2A` (which holds
`a.css` and `a.js`) and the media `b = c2B`, `a + b` contains neither
`a.css` nor `a.js` — a file referenced by the left operand is lost, so
`__add__` does not merge the two operands' css dictionaries and js
lists. -/
theorem immutableAdd_drops_left_operand :
    cssHas c2A.css "screen" "a.css" ∧ "a.js" ∈ c2A.js ∧
    ¬ cssHas (pyAdd c2A c2B).css "screen" "a.css" ∧ "a.js" ∉ (pyAdd c2A c2B).js := by
  decide

/-- C2 (amended): for an `ImmutableMedia` `a` and a media object `b`,
`a + b` returns `b` itself when `b` is the shared empty instance and
otherwise a fresh plain `Media` whose css dict and js list are shallow
copies of `b`'s alone; consequently no file of `b` is lost, and the
claimed merge of both operands holds exactly in the intended use where
`a` carries no files (as the shared empty instance does). -/
theorem immutableAdd_amended (a b : Media) (ha : a.isImmutable = true) :
    (b.isEmptyInstance = true → pyAdd a b = b) ∧
    (b.isEmptyInstance = false → (pyAdd a b).css = b.css ∧ (pyAdd a b).js = b.js) ∧
    (a.css = [] → a.js = [] →
      (∀ m p, cssHas a.css m p ∨ cssHas b.css m p → cssHas (pyAdd a b).css m p) ∧
      (∀ x, x ∈ a.js ∨ x ∈ b.js → x ∈ (pyAdd a b).js)) := by
  refine ⟨?_, ?_, ?_⟩
  · intro hb
    simp [pyAdd, immutableAdd, ha, hb]
  · intro hb
    simp [pyAdd, immutableAdd, ha, hb]
  · intro hcss hjs
    constructor
    · intro m p hmp
      rcases hmp with hmp | hmp
      · rw [hcss] at hmp
        simp [cssHas] at hmp
      · simp only [pyAdd, immutableAdd, ha, if_pos rfl]
        by_cases hb : b.isEmptyInstance = true
        · simpa [hb] using hmp
        · simp only [Bool.not_eq_true] at hb
          simpa [hb] using hmp
    · intro x hx
      rcases hx with hx | hx
      · rw [hjs] at hx
        simp at hx
      · simp only [pyAdd, immutableAdd, ha, if_pos rfl]
        by_cases hb : b.isEmptyInstance = true
        · simpa [hb] using hx
        · simp only [Bool.not_eq_true] at hb
          simpa [hb] using hx

/-- C2 witness: the amended statement applied to the shared empty instance
and a concrete media object. -/
theorem immutableAdd_amended_witness :
    (pyAdd emptyInstance c2B).css = c2B.css ∧ (pyAdd emptyInstance c2B).js = c2B.js ∧
    cssHas (pyAdd emptyInstance c2B).css "all" "b.css" ∧ "b.js" ∈ (pyAdd emptyInstance c2B).js := by
  have h := immutableAdd_amended emptyInstance c2B (by decide)
  have h2 := h.2.1 (by decide)
  have h3 := h.2.2 rfl rfl
  exact ⟨h2.1, h2.2, h3.1 "all" "b.css" (Or.inr (by decide)), h3.2 "b.js" (Or.inr (by decide))⟩

/-- Faithfulness invariant on embedded media values: the shared empty
instance flag belongs only to the value that actually is
`ImmutableMedia.empty_instance`, i.e. an `ImmutableMedia` with empty
`_css` and `_js`. -/
def MediaWF (m : Media) : Prop :=
  m.isEmptyInstance = true → m.css = [] ∧ m.js = [] ∧ m.isImmutable = true

instance (m : Media) : Decidable (MediaWF m) := by
  unfold MediaWF
  infer_instance

/-- The `ContentItemOutput` of the C4 counterexample: its media is a
non-empty plain `Media`. -/
def c4O : ContentItemOutput :=
  ⟨"x", ⟨[], ["a.js"], false, false⟩, true, CacheTimeout.defaultTimeout⟩

/-- The inserted media of the C4 counterexample: a non-empty
`ImmutableMedia` (`ImmutableMedia(js=['b.js'])`). -/
def c4M : Media := immutableMediaInit [] ["b.js"]

/-- C4 counterexample: inserting the `ImmutableMedia` `c4M` (which holds
`b.js`) into an output whose media is a non-empty plain `Media` drops
`b.js`: `_insert_media` evaluates `media + self.media`, which dispatches
to `ImmutableMedia.__add__` and keeps only the old media's files. -/
theorem insert_media_drops_immutable_arg :
    "b.js" ∈ c4M.js ∧ "b.js" ∉ (insert_media c4O c4M).media.js := by
  decide

/-- C4 (amended): for every output `o` (with a faithfully flagged media
value) and every media object `m` that is not an `ImmutableMedia` — or
with `o.media` the shared empty instance — after `o._insert_media(m)` the
media of `o` contains all css and js files of `m` together with all css
and js files `o.media` held before the call, and `m` itself is not mutated
(the source builds a fresh `Media`; the embedding reads but never rewrites
`m`).  When `m` is an `ImmutableMedia` and `o.media` is neither the shared
empty instance nor free of files, `m`'s files are dropped
(`insert_media_drops_immutable_arg`). -/
theorem insert_media_amended (o : ContentItemOutput) (m : Media)
    (hwf : MediaWF o.media)
    (h : m.isImmutable = false ∨ o.media.isEmptyInstance = true) :
    (∀ md p, cssHas m.css md p ∨ cssHas o.media.css md p →
      cssHas (insert_media o m).media.css md p) ∧
    (∀ x, x ∈ m.js ∨ x ∈ o.media.js → x ∈ (insert_media o m).media.js) := by
  by_cases he : o.media.isEmptyInstance = true
  · obtain ⟨hc, hj, _⟩ := hwf he
    constructor
    · intro md p hmp
      rcases hmp with hmp | hmp
      · simp only [insert_media, he, if_pos rfl]
        exact mediaAdd_cssHas plainEmptyMedia m md p (Or.inr hmp)
      · rw [hc] at hmp
        simp [cssHas] at hmp
    · intro x hx
      rcases hx with hx | hx
      · simp only [insert_media, he, if_pos rfl]
        exact mediaAdd_js plainEmptyMedia m x (Or.inr hx)
      · rw [hj] at hx
        simp at hx
  · have hm : m.isImmutable = false := by
      rcases h with h | h
      · exact h
      · exact absurd h he
    have hmne : ¬ (m.isImmutable = true) := by rw [hm]; simp
    constructor
    · intro md p hmp
      simp only [insert_media, if_neg he]
      show cssHas (pyAdd m o.media).css md p
      simp only [pyAdd, if_neg hmne]
      exact mediaAdd_cssHas m o.media md p hmp
    · intro x hx
      simp only [insert_media, if_neg he]
      show x ∈ (pyAdd m o.media).js
      simp only [pyAdd, if_neg hmne]
      exact mediaAdd_js m o.media x hx

/-- C4 witness: inserting a plain media into `c4O` keeps the files of both
sides. -/
theorem insert_media_amended_witness :
    cssHas (insert_media c4O (Media.mk [("all", ["m.css"])] ["m.js"] false false)).media.css
      "all" "m.css" ∧
    "m.js" ∈ (insert_media c4O (Media.mk [("all", ["m.css"])] ["m.js"] false false)).media.js ∧
    "a.js" ∈ (insert_media c4O (Media.mk [("all", ["m.css"])] ["m.js"] false false)).media.js := by
  have h := insert_media_amended c4O (Media.mk [("all", ["m.css"])] ["m.js"] false false)
    (by decide) (Or.inl (by decide))
  exact ⟨h.1 "all" "m.css" (Or.inl (by decide)), h.2 "m.js" (Or.inl (by decide)),
    h.2 "a.js" (Or.inr (by decide))⟩

/-- C9: restoring a `ContentItemOutput` from its pickled state round-trips
the html and the media's `_css`/`_js` (with the shared empty instance used
exactly when both are empty), while `cacheable` is always restored as
`True` and `cache_timeout` as `DEFAULT_TIMEOUT`, whatever the original
values were. -/
theorem pickle_roundtrip (o : ContentItemOutput) :
    (setstate (getstate o)).html = o.html ∧
    (setstate (getstate o)).media.css = o.media.css ∧
    (setstate (getstate o)).media.js = o.media.js ∧
    ((setstate (getstate o)).media = emptyInstance ↔ o.media.css = [] ∧ o.media.js = []) ∧
    (setstate (getstate o)).cacheable = true ∧
    (setstate (getstate o)).cache_timeout = CacheTimeout.defaultTimeout := by
  by_cases h : o.media.css = [] ∧ o.media.js = []
  · obtain ⟨hc, hj⟩ := h
    refine ⟨rfl, ?_, ?_, ?_, rfl, rfl⟩
    · simp [setstate, getstate, hc, hj, emptyInstance]
    · simp [setstate, getstate, hc, hj, emptyInstance]
    · simp [setstate, getstate, hc, hj]
  · refine ⟨rfl, ?_, ?_, ?_, rfl, rfl⟩
    · simp [setstate, getstate, h]
    · simp [setstate, getstate, h]
    · simp only [setstate, getstate, if_neg h]
      constructor
      · intro habs
        have : (Media.mk o.media.css o.media.js true false).isEmptyInstance = true := by
          rw [habs]; rfl
        simp at this
      · intro habs
        exact absurd habs h

/-! ### Claim theorem for `PlaceholderData` -/

/-- C10: `PlaceholderData(slot, title, role, fallback_language)` raises
`ValueError` if and only if the slot is falsy, or the role — after
resolving the aliases and defaulting a missing/falsy role to
`Placeholder.MAIN` — is not an allowed role; on success the title defaults
to the slot when not given (or falsy) and a falsy fallback language
becomes `None`. -/
theorem placeholderData_init_spec (slot : String) (title role fallback_language : Option String) :
    ((∃ msg, placeholderDataInit slot title role fallback_language = Except.error msg) ↔
      (slot = "" ∨ resolveRole role ∉ allowedRoles)) ∧
    (∀ pd, placeholderDataInit slot title role fallback_language = Except.ok pd →
      pd.slot = slot ∧
      pd.role = resolveRole role ∧
      pd.title = (match title with
        | none => slot
        | some s => if s = "" then slot else s) ∧
      pd.fallback_language = (match fallback_language with
        | none => none
        | some s => if s = "" then none else some s) ∧
      (title = none → pd.title = slot) ∧
      (fallback_language = none ∨ fallback_language = some "" → pd.fallback_language = none)) := by
  by_cases hs : slot = ""
  · constructor
    · simp only [placeholderDataInit, if_pos hs]
      exact ⟨fun _ => Or.inl hs, fun _ => ⟨_, rfl⟩⟩
    · intro pd hpd
      simp only [placeholderDataInit, if_pos hs] at hpd
      exact Except.noConfusion hpd
  · by_cases hr : resolveRole role ∈ allowedRoles
    · constructor
      · simp only [placeholderDataInit, if_neg hs, if_pos hr]
        constructor
        · rintro ⟨msg, hmsg⟩
          exact absurd hmsg (by simp)
        · rintro (h | h)
          · exact absurd h hs
          · exact absurd hr h
      · intro pd hpd
        simp only [placeholderDataInit, if_neg hs, if_pos hr, Except.ok.injEq] at hpd
        subst hpd
        refine ⟨rfl, rfl, rfl, rfl, ?_, ?_⟩
        · intro ht; subst ht; rfl
        · rintro (hf | hf) <;> subst hf <;> rfl
    · constructor
      · simp only [placeholderDataInit, if_neg hs, if_neg hr]
        exact ⟨fun _ => Or.inr hr, fun _ => ⟨_, rfl⟩⟩
      · intro pd hpd
        simp only [placeholderDataInit, if_neg hs, if_neg hr] at hpd
        exact Except.noConfusion hpd

/-- C10 witness: constructing `PlaceholderData('slot1', role='sidebar')`
succeeds with the alias resolved, the title defaulted to the slot and no
fallback language. -/
theorem placeholderData_init_spec_witness :
    (¬ ∃ msg, placeholderDataInit "slot1" none (some "sidebar") (some "") = Except.error msg) ∧
    PlaceholderData.slot ⟨"slot1", "slot1", "s", none⟩ = "slot1" ∧
    PlaceholderData.role ⟨"slot1", "slot1", "s", none⟩ = resolveRole (some "sidebar") ∧
    PlaceholderData.title ⟨"slot1", "slot1", "s", none⟩ = "slot1" ∧
    PlaceholderData.fallback_language ⟨"slot1", "slot1", "s", none⟩ = none := by
  have h := placeholderData_init_spec "slot1" none (some "sidebar") (some "")
  have h2 := h.2 ⟨"slot1", "slot1", "s", none⟩ rfl
  refine ⟨?_, h2.1, h2.2.1, h2.2.2.2.2.1 rfl, h2.2.2.2.2.2 (Or.inr rfl)⟩
  intro habs
  have := h.1.mp habs
  revert this
  decide

/-! ### Claim theorems for `get_form_class` -/

theorem lookup_isSome_of_mem_keys (bf : List (String × Nat)) (k : String)
    (h : k ∈ bf.map Prod.fst) : (bf.lookup k).isSome = true := by
  induction bf with
  | nil => simp at h
  | cons e rest ih =>
    rcases List.mem_cons.mp h with heq | hmem
    · simp [List.lookup, heq.symm]
    · by_cases hk : k = e.1
      · simp [List.lookup, hk]
      · have : (k == e.1) = false := beq_eq_false_iff_ne.mpr hk
        simp only [List.lookup, this]
        exact ih hmem

theorem lookup_cons_ne (e : String × Nat) (rest : List (String × Nat)) (k : String)
    (h : k ≠ e.1) : (e :: rest).lookup k = rest.lookup k := by
  have : (k == e.1) = false := beq_eq_false_iff_ne.mpr h
  simp [List.lookup, this]

theorem assocEq_of_nodup (bf : List (String × Nat)) (h : (bf.map Prod.fst).Nodup) :
    (bf.map Prod.fst).map (fun k => (k, (bf.lookup k).getD 0)) = bf := by
  induction bf with
  | nil => rfl
  | cons e rest ih =>
    obtain ⟨hhead, htail⟩ := List.nodup_cons.mp h
    simp only [List.map_cons]
    have h1 : ((e :: rest).lookup e.1).getD 0 = e.2 := by
      simp [List.lookup]
    rw [h1]
    have h2 : (rest.map Prod.fst).map (fun k => (k, ((e :: rest).lookup k).getD 0)) =
        (rest.map Prod.fst).map (fun k => (k, (rest.lookup k).getD 0)) := by
      apply List.map_congr_left
      intro k hk
      rw [lookup_cons_ne e rest k (fun habs => hhead (habs ▸ hk))]
    rw [h2, ih htail]

theorem mapM_lookup_eq (bf : List (String × Nat)) (ks : List String)
    (h : ∀ k ∈ ks, k ∈ bf.map Prod.fst) :
    ks.mapM (fun k => (bf.lookup k).map (fun v => (k, v))) =
      some (ks.map (fun k => (k, (bf.lookup k).getD 0))) := by
  induction ks with
  | nil => rfl
  | cons k rest ih =>
    have hk := h k (List.mem_cons_self k rest)
    obtain ⟨v, hv⟩ := Option.isSome_iff_exists.mp (lookup_isSome_of_mem_keys bf k hk)
    rw [List.mapM_cons, ih (fun x hx => h x (List.mem_cons_of_mem _ hx))]
    simp [hv]

/-- C5: for every generated child form whose `base_fields` contains all of
`ContentItemForm`'s base fields (`first_fields`; key lists of Python dicts
are duplicate-free), `get_form_class` rebuilds `base_fields` as a
permutation of the original in which the common `ContentItemForm` fields
come first in `ContentItemForm`'s order, followed by the remaining fields
in their original relative order; no field is added, lost, or bound to a
different field object. -/
theorem get_form_class_spec (first_fields : List String) (base_fields : List (String × Nat))
    (h1 : first_fields.Nodup) (h2 : (base_fields.map Prod.fst).Nodup)
    (hsub : ∀ k ∈ first_fields, k ∈ base_fields.map Prod.fst) :
    ∃ result, get_form_class first_fields base_fields = some result ∧
      result.Perm base_fields ∧
      result.map Prod.fst =
        first_fields ++ (base_fields.map Prod.fst).filter (fun f => f ∉ first_fields) ∧
      (∀ k v, (k, v) ∈ result ↔ (k, v) ∈ base_fields) := by
  have hmem :
      ∀ k ∈ first_fields ++ (base_fields.map Prod.fst).filter (fun f => f ∉ first_fields),
        k ∈ base_fields.map Prod.fst := by
    intro k hk
    rcases List.mem_append.mp hk with hk | hk
    · exact hsub k hk
    · exact (List.mem_filter.mp hk).1
  have hsome := mapM_lookup_eq base_fields _ hmem
  have hfirst : first_fields.Perm
      ((base_fields.map Prod.fst).filter (fun f => decide (f ∈ first_fields))) := by
    apply List.perm_of_nodup_nodup_toFinset_eq h1 (h2.filter _)
    ext x
    simp only [List.mem_toFinset, List.mem_filter, decide_eq_true_eq]
    exact ⟨fun hx => ⟨hsub x hx, hx⟩, fun hx => hx.2⟩
  have hconv : (base_fields.map Prod.fst).filter (fun f => decide (f ∉ first_fields)) =
      (base_fields.map Prod.fst).filter (fun f => !decide (f ∈ first_fields)) := by
    simp only [decide_not]
  have hperm :
      (first_fields ++ (base_fields.map Prod.fst).filter (fun f => f ∉ first_fields)).Perm
        (base_fields.map Prod.fst) := by
    refine List.Perm.trans ?_
      (List.filter_append_perm (fun f => decide (f ∈ first_fields)) (base_fields.map Prod.fst))
    rw [show (fun f : String => (decide (f ∉ first_fields))) =
        (fun f => !decide (f ∈ first_fields)) from funext (fun f => by simp [decide_not])]
    exact hfirst.append_right _
  have hpermfull :
      (((first_fields ++ (base_fields.map Prod.fst).filter (fun f => f ∉ first_fields)).map
        (fun k => (k, (base_fields.lookup k).getD 0)))).Perm base_fields := by
    have hmapped := hperm.map (fun k => (k, (base_fields.lookup k).getD 0))
    rw [assocEq_of_nodup base_fields h2] at hmapped
    exact hmapped
  refine ⟨_, ?_, hpermfull, ?_, fun k v => hpermfull.mem_iff⟩
  · simpa only [get_form_class] using hsome
  · have hcomp : (Prod.fst ∘ fun k : String => (k, (base_fields.lookup k).getD 0)) =
        fun k => k := funext (fun k => rfl)
    simp [List.map_map, hcomp]

/-- C5 witness: a concrete generated form with fields `c, a, b` and common
fields `a, b` is reordered to `a, b, c` with the field objects kept. -/
theorem get_form_class_spec_witness :
    ∃ result, get_form_class ["a", "b"] [("c", 1), ("a", 2), ("b", 3)] = some result ∧
      result.Perm [("c", 1), ("a", 2), ("b", 3)] ∧
      result.map Prod.fst =
        ["a", "b"] ++ ([("c", 1), ("a", 2), ("b", 3)].map Prod.fst).filter
          (fun f => f ∉ ["a", "b"]) ∧
      (∀ k v, (k, v) ∈ result ↔ (k, v) ∈ [("c", 1), ("a", 2), ("b", 3)]) :=
  get_form_class_spec ["a", "b"] [("c", 1), ("a", 2), ("b", 3)]
    (by decide) (by decide) (by decide)

/-! ### Claim theorem for `get_content_item_inlines` -/

/-- C7: for every plugin list (and for the full registered pool when the
argument is `None`), `get_content_item_inlines` returns a list containing
exactly one parent inline class whose model is `ContentItem`, whose
`plugins` attribute is the given plugin list, and whose `child_inlines`
holds exactly one child inline per plugin, in the same order, each
produced by `create_inline_for_plugin`. -/
theorem get_content_item_inlines_spec (pool : List Plugin) (plugins : Option (List Plugin)) :
    ∃ pInline, get_content_item_inlines pool plugins = [pInline] ∧
      (get_content_item_inlines pool plugins).length = 1 ∧
      pInline.model = "ContentItem" ∧
      pInline.plugins = plugins.getD pool ∧
      pInline.child_inlines = pInline.plugins.map create_inline_for_plugin ∧
      pInline.child_inlines.length = pInline.plugins.length := by
  cases plugins with
  | none => exact ⟨_, rfl, rfl, rfl, rfl, rfl, by simp⟩
  | some l => exact ⟨_, rfl, rfl, rfl, rfl, rfl, by simp⟩

/-! ### Lemmas about the sort and the grouping of `from_list` -/

theorem insertSorted_perm (x : RawItem) (l : List RawItem) :
    (insertSorted x l).Perm (x :: l) := by
  induction l with
  | nil => exact List.Perm.refl _
  | cons y ys ih =>
    simp only [insertSorted]
    by_cases h : y.sort_order < x.sort_order
    · simp only [if_pos h]
      exact (ih.cons y).trans (List.Perm.swap x y ys)
    · simp only [if_neg h]
      exact List.Perm.refl _

theorem sortItems_perm (l : List RawItem) : (sortItems l).Perm l := by
  induction l with
  | nil => exact List.Perm.refl _
  | cons x xs ih =>
    exact (insertSorted_perm x (sortItems xs)).trans (ih.cons x)

theorem insertSorted_pairwise (x : RawItem) (l : List RawItem)
    (h : l.Pairwise (fun a b => a.sort_order ≤ b.sort_order)) :
    (insertSorted x l).Pairwise (fun a b => a.sort_order ≤ b.sort_order) := by
  induction l with
  | nil => simp [insertSorted]
  | cons y ys ih =>
    obtain ⟨hy, hys⟩ := List.pairwise_cons.mp h
    simp only [insertSorted]
    by_cases hlt : y.sort_order < x.sort_order
    · simp only [if_pos hlt]
      refine List.pairwise_cons.mpr ⟨?_, ih hys⟩
      intro z hz
      have hz2 : z ∈ x :: ys := (insertSorted_perm x ys).mem_iff.mp hz
      rcases List.mem_cons.mp hz2 with rfl | hz3
      · exact le_of_lt hlt
      · exact hy z hz3
    · simp only [if_neg hlt]
      have hxy : x.sort_order ≤ y.sort_order := le_of_not_lt hlt
      refine List.pairwise_cons.mpr ⟨?_, h⟩
      intro z hz
      rcases List.mem_cons.mp hz with rfl | hz2
      · exact hxy
      · exact le_trans hxy (hy z hz2)

theorem sortItems_pairwise (l : List RawItem) :
    (sortItems l).Pairwise (fun a b => a.sort_order ≤ b.sort_order) := by
  induction l with
  | nil => simp [sortItems]
  | cons x xs ih => exact insertSorted_pairwise x (sortItems xs) ih

theorem addToGroup_lookup_self (groups : List (Option Nat × List RawItem)) (k : Option Nat)
    (it : RawItem) :
    (addToGroup groups k it).lookup k = some ((groups.lookup k).getD [] ++ [it]) := by
  induction groups with
  | nil => simp [addToGroup, List.lookup]
  | cons e rest ih =>
    obtain ⟨k2, its⟩ := e
    simp only [addToGroup]
    by_cases hk : k2 = k
    · subst hk
      simp [List.lookup]
    · simp only [if_neg hk]
      have hbeq : (k == k2) = false := beq_eq_false_iff_ne.mpr (Ne.symm hk)
      simp [List.lookup, hbeq, ih]

theorem addToGroup_lookup_ne (groups : List (Option Nat × List RawItem)) (k : Option Nat)
    (it : RawItem) (k' : Option Nat) (h : k' ≠ k) :
    (addToGroup groups k it).lookup k' = groups.lookup k' := by
  induction groups with
  | nil =>
    have hbeq : (k' == k) = false := beq_eq_false_iff_ne.mpr h
    simp [addToGroup, List.lookup, hbeq]
  | cons e rest ih =>
    obtain ⟨k2, its⟩ := e
    simp only [addToGroup]
    by_cases hk : k2 = k
    · have hbeq : (k' == k2) = false := beq_eq_false_iff_ne.mpr (hk ▸ h)
      simp [if_pos hk, List.lookup, hbeq]
    · simp only [if_neg hk]
      by_cases hk2 : k' = k2
      · subst hk2
        simp [List.lookup]
      · have hbeq : (k' == k2) = false := beq_eq_false_iff_ne.mpr hk2
        simp [List.lookup, hbeq, ih]

theorem foldl_group_lookup (items : List RawItem) (acc : List (Option Nat × List RawItem))
    (k : Option Nat) :
    ((items.foldl (fun a it => addToGroup a it.parent_item_id it) acc).lookup k) =
      (if items.filter (fun it => it.parent_item_id = k) = [] then acc.lookup k
       else some ((acc.lookup k).getD [] ++ items.filter (fun it => it.parent_item_id = k))) := by
  induction items generalizing acc with
  | nil => simp
  | cons it its ih =>
    simp only [List.foldl_cons]
    by_cases hit : it.parent_item_id = k
    · have hfil : (it :: its).filter (fun i => i.parent_item_id = k) =
          it :: its.filter (fun i => i.parent_item_id = k) := by
        simp [List.filter_cons, hit]
      have hself : (addToGroup acc it.parent_item_id it).lookup k =
          some ((acc.lookup k).getD [] ++ [it]) := by
        rw [hit]
        exact addToGroup_lookup_self acc k it
      rw [ih (addToGroup acc it.parent_item_id it), hfil]
      by_cases hrest : its.filter (fun i => i.parent_item_id = k) = []
      · simp [hrest, hself]
      · simp [hrest, hself, List.append_assoc]
    · have hfil : (it :: its).filter (fun i => i.parent_item_id = k) =
          its.filter (fun i => i.parent_item_id = k) := by
        simp [List.filter_cons, hit]
      have hne : (addToGroup acc it.parent_item_id it).lookup k = acc.lookup k :=
        addToGroup_lookup_ne acc it.parent_item_id it k (fun habs => hit habs.symm)
      rw [ih (addToGroup acc it.parent_item_id it), hfil, hne]

theorem groupByParent_lookup (items : List RawItem) (k : Option Nat) :
    (groupByParent items).lookup k =
      (if items.filter (fun it => it.parent_item_id = k) = [] then none
       else some (items.filter (fun it => it.parent_item_id = k))) := by
  have h := foldl_group_lookup items [] k
  simpa [groupByParent, List.lookup] using h

theorem addToGroup_keys (groups : List (Option Nat × List RawItem)) (k : Option Nat)
    (it : RawItem) :
    (addToGroup groups k it).map Prod.fst =
      (if k ∈ groups.map Prod.fst then groups.map Prod.fst
       else groups.map Prod.fst ++ [k]) := by
  induction groups with
  | nil => simp [addToGroup]
  | cons e rest ih =>
    obtain ⟨k2, its⟩ := e
    simp only [addToGroup]
    by_cases hk : k2 = k
    · subst hk
      simp
    · simp only [if_neg hk, List.map_cons, ih]
      by_cases hmem : k ∈ rest.map Prod.fst
      · simp [hmem, List.mem_cons, Ne.symm hk]
      · simp [hmem, List.mem_cons, Ne.symm hk]

theorem foldl_group_keys_nodup (items : List RawItem) (acc : List (Option Nat × List RawItem))
    (h : (acc.map Prod.fst).Nodup) :
    (((items.foldl (fun a it => addToGroup a it.parent_item_id it) acc)).map Prod.fst).Nodup := by
  induction items generalizing acc with
  | nil => exact h
  | cons it its ih =>
    simp only [List.foldl_cons]
    apply ih
    rw [addToGroup_keys]
    by_cases hmem : it.parent_item_id ∈ acc.map Prod.fst
    · simpa [hmem] using h
    · simp only [if_neg hmem]
      simp [List.nodup_append, h, hmem]

theorem groupKeys_nodup (items : List RawItem) :
    ((groupByParent items).map Prod.fst).Nodup :=
  foldl_group_keys_nodup items [] (by simp)

theorem mem_eq_lookup_of_nodup (groups : List (Option Nat × List RawItem))
    (k : Option Nat) (g : List RawItem)
    (hnd : (groups.map Prod.fst).Nodup) (hmem : (k, g) ∈ groups) :
    groups.lookup k = some g := by
  induction groups with
  | nil => simp at hmem
  | cons e rest ih =>
    obtain ⟨k2, g2⟩ := e
    obtain ⟨hhead, htail⟩ := List.nodup_cons.mp hnd
    rcases List.mem_cons.mp hmem with heq | hmem2
    · obtain ⟨hk, hg⟩ := Prod.mk.injEq .. ▸ heq
      subst hk
      subst hg
      simp [List.lookup]
    · by_cases hk : k = k2
      · subst hk
        exact absurd (List.mem_map_of_mem Prod.fst hmem2) hhead
      · have hbeq : (k == k2) = false := beq_eq_false_iff_ne.mpr hk
        simp only [List.lookup, hbeq]
        exact ih htail hmem2

theorem lookup_mem (groups : List (Option Nat × List RawItem)) (k : Option Nat)
    (g : List RawItem) (h : groups.lookup k = some g) : (k, g) ∈ groups := by
  induction groups with
  | nil => simp [List.lookup] at h
  | cons e rest ih =>
    obtain ⟨k2, g2⟩ := e
    by_cases hk : k = k2
    · subst hk
      simp only [List.lookup, beq_self_eq_true] at h
      have hg : g2 = g := Option.some.injEq .. ▸ h
      subst hg
      exact List.mem_cons_self _ _
    · have hbeq : (k == k2) = false := beq_eq_false_iff_ne.mpr hk
      simp only [List.lookup, hbeq] at h
      exact List.mem_cons_of_mem _ (ih h)

theorem idLookup_foldl_isSome (items : List RawItem) (p : Nat) (acc : Option RawItem)
    (h : acc.isSome = true ∨ ∃ it ∈ items, it.id = p) :
    ((items.foldl (fun a it => if it.id = p then some it else a) acc)).isSome = true := by
  induction items generalizing acc with
  | nil =>
    rcases h with h | h
    · exact h
    · simp at h
  | cons it its ih =>
    simp only [List.foldl_cons]
    apply ih
    by_cases hit : it.id = p
    · left
      simp [hit]
    · rcases h with h | h
      · left
        simpa [hit] using h
      · rcases h with ⟨w, hw, hwp⟩
        rcases List.mem_cons.mp hw with rfl | hw2
        · exact absurd hwp hit
        · exact Or.inr ⟨w, hw2, hwp⟩

theorem idLookup_isSome (items : List RawItem) (p : Nat)
    (h : ∃ it ∈ items, it.id = p) : (idLookup items p).isSome = true :=
  idLookup_foldl_isSome items p none (Or.inr h)

theorem attachChildren_ok (items : List RawItem) (top : Option Nat)
    (groups : List (Option Nat × List RawItem))
    (h : ∀ p g, (some p, g) ∈ groups → some p ≠ top → (idLookup items p).isSome = true) :
    attachChildren items top groups =
      Except.ok (groups.filterMap (fun e =>
        match e.1 with
        | none => none
        | some p => if some p = top then none else some (p, sortItems e.2))) := by
  induction groups with
  | nil => rfl
  | cons e rest ih =>
    obtain ⟨pid, children⟩ := e
    have hrest := ih (fun p g hm hp => h p g (List.mem_cons_of_mem _ hm) hp)
    cases pid with
    | none =>
      have hf : (fun e : Option Nat × List RawItem =>
          match e.1 with
          | none => none
          | some q => if some q = top then none else some (q, sortItems e.2))
            (none, children) = none := rfl
      simp only [attachChildren, hrest, List.filterMap_cons, hf]
    | some p =>
      by_cases hp : some p = top
      · have hf : (fun e : Option Nat × List RawItem =>
            match e.1 with
            | none => none
            | some q => if some q = top then none else some (q, sortItems e.2))
              (some p, children) = none := by
          show (if some p = top then none else some (p, sortItems children)) = none
          exact if_pos hp
        simp only [attachChildren, if_pos hp, hrest, List.filterMap_cons, hf]
      · have hsome := h p children (List.mem_cons_self _ _) hp
        obtain ⟨w, hw⟩ := Option.isSome_iff_exists.mp hsome
        have hf : (fun e : Option Nat × List RawItem =>
            match e.1 with
            | none => none
            | some q => if some q = top then none else some (q, sortItems e.2))
              (some p, children) = some (p, sortItems children) := by
          show (if some p = top then none else some (p, sortItems children)) =
            some (p, sortItems children)
          exact if_neg hp
        simp only [attachChildren, if_neg hp, hw, hrest, List.filterMap_cons, hf]

theorem from_list_ok_of_wf (items : List RawItem) (top : Option Nat)
    (hwf : FromListWF items top) (hne : items ≠ []) :
    from_list items top =
      Except.ok
        (⟨sortItems (items.filter (fun it => it.parent_item_id = top)), some items⟩,
          (groupByParent items).filterMap (fun e =>
            match e.1 with
            | none => none
            | some p => if some p = top then none else some (p, sortItems e.2))) := by
  rcases hwf with hempty | ⟨⟨r, hr, hrp⟩, hpar⟩
  · exact absurd hempty hne
  have hattach : ∀ p g, (some p, g) ∈ groupByParent items → some p ≠ top →
      (idLookup items p).isSome = true := by
    intro p g hm hp
    have hlk := mem_eq_lookup_of_nodup _ _ _ (groupKeys_nodup items) hm
    rw [groupByParent_lookup] at hlk
    by_cases hf : items.filter (fun it => it.parent_item_id = some p) = []
    · rw [if_pos hf] at hlk
      exact Option.noConfusion hlk
    · rw [if_neg hf] at hlk
      obtain ⟨w, hw⟩ := List.exists_mem_of_ne_nil _ hf
      have hw2 := List.mem_filter.mp hw
      apply idLookup_isSome
      exact hpar w hw2.1 p (by simpa using hw2.2) hp
  have hroots : (groupByParent items).lookup top =
      some (items.filter (fun it => it.parent_item_id = top)) := by
    rw [groupByParent_lookup]
    have hnonnil : items.filter (fun it => it.parent_item_id = top) ≠ [] := by
      intro habs
      have hmem : r ∈ items.filter (fun it => it.parent_item_id = top) :=
        List.mem_filter.mpr ⟨hr, by simpa using hrp⟩
      rw [habs] at hmem
      simp at hmem
    rw [if_neg hnonnil]
  cases items with
  | nil => exact absurd rfl hne
  | cons x xs =>
    simp only [from_list, attachChildren_ok _ _ _ hattach, hroots]

/-- C1: for every non-empty item list satisfying the lookup precondition
(`FromListWF`, cf. C8 — the described returns presuppose both dict
accesses succeed), `ContentItemTree.from_list(items, top_parent_id)`
groups the items by `parent_item_id`; every group whose key is neither
`None` nor the top id is sorted ascending by `sort_order` and attached via
`_set_children` to the item of the list whose id equals that key (the
recorded assignment pairs); the group keyed by `top_parent_id`, sorted
ascending by `sort_order`, becomes the roots of the returned tree, whose
`flat_items` is the full input list.  An empty input yields an empty
tree. -/
theorem from_list_spec (items : List RawItem) (top : Option Nat)
    (hwf : FromListWF items top) :
    (items = [] → from_list items top = Except.ok (⟨[], none⟩, [])) ∧
    (items ≠ [] → ∃ t asg, from_list items top = Except.ok (t, asg) ∧
      t.flat_items = some items ∧
      t.items.Perm (items.filter (fun it => it.parent_item_id = top)) ∧
      t.items.Pairwise (fun a b => a.sort_order ≤ b.sort_order) ∧
      (∀ k g, (k, g) ∈ asg →
        some k ≠ top ∧
        (∃ it ∈ items, it.id = k) ∧
        g.Perm (items.filter (fun it => it.parent_item_id = some k)) ∧
        g.Pairwise (fun a b => a.sort_order ≤ b.sort_order)) ∧
      (∀ k : Nat, some k ≠ top → (∃ it ∈ items, it.parent_item_id = some k) →
        ∃ g, (k, g) ∈ asg)) := by
  constructor
  · intro h
    subst h
    rfl
  · intro hne
    have hok := from_list_ok_of_wf items top hwf hne
    rcases hwf with hempty | ⟨hroot, hpar⟩
    · exact absurd hempty hne
    refine ⟨_, _, hok, rfl, sortItems_perm _, sortItems_pairwise _, ?_, ?_⟩
    · intro k g hkg
      obtain ⟨e, he, hfe⟩ := List.mem_filterMap.mp hkg
      obtain ⟨pid, grp⟩ := e
      cases pid with
      | none => exact Option.noConfusion hfe
      | some p =>
        have hfe2 : (if some p = top then none else some (p, sortItems grp)) =
            some (k, g) := hfe
        by_cases hp : some p = top
        · rw [if_pos hp] at hfe2
          exact Option.noConfusion hfe2
        · rw [if_neg hp] at hfe2
          have hpair := Option.some.injEq .. ▸ hfe2
          obtain ⟨hpk, hg⟩ := Prod.mk.injEq .. ▸ hpair
          subst hpk
          subst hg
          have hlk := mem_eq_lookup_of_nodup _ _ _ (groupKeys_nodup items) he
          rw [groupByParent_lookup] at hlk
          by_cases hf : items.filter (fun it => it.parent_item_id = some p) = []
          · rw [if_pos hf] at hlk
            exact Option.noConfusion hlk
          · rw [if_neg hf] at hlk
            have hgrp : grp = items.filter (fun it => it.parent_item_id = some p) :=
              (Option.some.injEq .. ▸ hlk).symm
            subst hgrp
            refine ⟨hp, ?_, sortItems_perm _, sortItems_pairwise _⟩
            obtain ⟨w, hw⟩ := List.exists_mem_of_ne_nil _ hf
            have hw2 := List.mem_filter.mp hw
            exact hpar w hw2.1 p (by simpa using hw2.2) hp
    · intro k hk ⟨it, hit, hitp⟩
      have hf : items.filter (fun i => i.parent_item_id = some k) ≠ [] := by
        intro habs
        have hmem : it ∈ items.filter (fun i => i.parent_item_id = some k) :=
          List.mem_filter.mpr ⟨hit, by simpa using hitp⟩
        rw [habs] at hmem
        simp at hmem
      have hlk : (groupByParent items).lookup (some k) =
          some (items.filter (fun i => i.parent_item_id = some k)) := by
        rw [groupByParent_lookup, if_neg hf]
      have hmemg := lookup_mem _ _ _ hlk
      refine ⟨sortItems (items.filter (fun i => i.parent_item_id = some k)), ?_⟩
      apply List.mem_filterMap.mpr
      refine ⟨(some k, items.filter (fun i => i.parent_item_id = some k)), hmemg, ?_⟩
      show (if some k = top then none else
        some (k, sortItems (items.filter (fun i => i.parent_item_id = some k)))) = _
      rw [if_neg hk]

/-- C1 witness: a concrete three-item list with a top-level item and two
children in reversed sort order. -/
theorem from_list_spec_witness :
    ∃ t asg,
      from_list [⟨1, none, 5⟩, ⟨2, some 1, 2⟩, ⟨3, some 1, 1⟩] none = Except.ok (t, asg) ∧
      t.flat_items = some [⟨1, none, 5⟩, ⟨2, some 1, 2⟩, ⟨3, some 1, 1⟩] ∧
      t.items.Perm ([⟨1, none, 5⟩, ⟨2, some 1, 2⟩, ⟨3, some 1, 1⟩].filter
        (fun it => it.parent_item_id = none)) ∧
      t.items.Pairwise (fun a b => a.sort_order ≤ b.sort_order) ∧
      (∀ k g, (k, g) ∈ asg →
        some k ≠ none ∧
        (∃ it ∈ [⟨1, none, 5⟩, ⟨2, some 1, 2⟩, ⟨3, some 1, 1⟩], RawItem.id it = k) ∧
        g.Perm ([⟨1, none, 5⟩, ⟨2, some 1, 2⟩, ⟨3, some 1, 1⟩].filter
          (fun it => it.parent_item_id = some k)) ∧
        g.Pairwise (fun a b => a.sort_order ≤ b.sort_order)) ∧
      (∀ k : Nat, some k ≠ none →
        (∃ it ∈ [⟨1, none, 5⟩, ⟨2, some 1, 2⟩, ⟨3, some 1, 1⟩],
          RawItem.parent_item_id it = some k) →
        ∃ g, (k, g) ∈ asg) :=
  (from_list_spec [⟨1, none, 5⟩, ⟨2, some 1, 2⟩, ⟨3, some 1, 1⟩] none (by decide)).2
    (by decide)

/-- C8: `from_list` performs no failing dictionary access when the input
list is empty, or has an item whose `parent_item_id` is the top id while
every other non-`None`, non-top `parent_item_id` is the id of some listed
item; without the precondition both `lookup[parent_id]` and
`parents[top_parent_id]` can raise `KeyError`, as the two concrete inputs
show. -/
theorem from_list_safe :
    (∀ (items : List RawItem) (top : Option Nat), FromListWF items top →
      ∃ r, from_list items top = Except.ok r) ∧
    from_list [⟨1, some 2, 0⟩] none = Except.error "KeyError: lookup[parent_id]" ∧
    from_list [⟨1, some 1, 0⟩] (some 2) = Except.error "KeyError: parents[top_parent_id]" := by
  refine ⟨?_, rfl, rfl⟩
  intro items top hwf
  by_cases hne : items = []
  · subst hne
    exact ⟨_, rfl⟩
  · exact ⟨_, from_list_ok_of_wf items top hwf hne⟩

/-- C8 witness: the totality statement applied to a concrete well-formed
list. -/
theorem from_list_safe_witness :
    ∃ r, from_list [⟨1, none, 0⟩, ⟨2, some 1, 0⟩] none = Except.ok r :=
  from_list_safe.1 [⟨1, none, 0⟩, ⟨2, some 1, 0⟩] none (by decide)

/-! ### Claim theorem for `_set_placeholder_id` / `save_new` / `save_existing` -/

theorem lookup_mem_assoc {α β : Type} [DecidableEq α] (l : List (α × β)) (k : α) (v : β)
    (h : l.lookup k = some v) : (k, v) ∈ l := by
  induction l with
  | nil => simp [List.lookup] at h
  | cons e rest ih =>
    obtain ⟨k2, v2⟩ := e
    by_cases hk : k = k2
    · subst hk
      simp only [List.lookup, beq_self_eq_true] at h
      have hv : v2 = v := Option.some.injEq .. ▸ h
      subst hv
      exact List.mem_cons_self _ _
    · have hbeq : (k == k2) = false := beq_eq_false_iff_ne.mpr hk
      simp only [List.lookup, hbeq] at h
      exact List.mem_cons_of_mem _ (ih h)

theorem dbGetBySlot_spec (ps : List Placeholder) (slot : String) (p : Placeholder)
    (h : dbGetBySlot ps slot = Except.ok p) : p.slot = slot ∧ p ∈ ps := by
  unfold dbGetBySlot at h
  cases hfil : ps.filter (fun x => x.slot = slot) with
  | nil =>
    rw [hfil] at h
    exact Except.noConfusion h
  | cons q rest =>
    cases rest with
    | nil =>
      rw [hfil] at h
      have hq : q = p := Except.ok.injEq .. ▸ h
      subst hq
      have hqmem : q ∈ ps.filter (fun x => x.slot = slot) := by
        rw [hfil]
        exact List.mem_cons_self _ _
      have h2 := List.mem_filter.mp hqmem
      exact ⟨by simpa using h2.2, h2.1⟩
    | cons q2 rest2 =>
      rw [hfil] at h
      exact Except.noConfusion h

theorem resolveSlot_spec (fs : FormsetState) (slot : String) (hcache : CacheConsistent fs)
    (q : Placeholder) (fs2 : FormsetState)
    (h : resolveSlot fs slot = Except.ok (q, fs2)) :
    q.slot = slot ∧ q ∈ fs.parent_placeholders := by
  unfold resolveSlot at h
  cases hlk : fs.placeholders_by_slot.lookup slot with
  | some p =>
    rw [hlk] at h
    have hpq : (p, fs) = (q, fs2) := Except.ok.injEq .. ▸ h
    obtain ⟨hp1, _⟩ := Prod.mk.injEq .. ▸ hpq
    subst hp1
    have hc := hcache (slot, p) (lookup_mem_assoc _ _ _ hlk)
    exact ⟨hc.1, hc.2⟩
  | none =>
    rw [hlk] at h
    cases hdb : dbGetBySlot fs.parent_placeholders slot with
    | error e =>
      rw [hdb] at h
      exact Except.noConfusion h
    | ok p =>
      rw [hdb] at h
      have hpq : (p, _) = (q, fs2) := Except.ok.injEq .. ▸ h
      obtain ⟨hp1, _⟩ := Prod.mk.injEq .. ▸ hpq
      subst hp1
      exact dbGetBySlot_spec fs.parent_placeholders slot p hdb

/-- C3: during formset save (`save_new` always runs the placeholder fixup,
`save_existing` runs it when `commit` is true), a form with a non-empty
cleaned `placeholder_slot` is attributed to the placeholder of the
formset's parent whose slot equals `placeholder_slot`: when the currently
selected placeholder is absent or carries another slot, the slot is
resolved (cache first, then the parent's placeholders) and assigned to
both `cleaned_data['placeholder']` and `instance.placeholder`; when the
selected placeholder already has the slot but its id is among the deleted
placeholders, the row's placeholder becomes `None` (orphaned); otherwise
the selection is kept.  The hypothesis `hsync` reflects Django's
`_post_clean`, which copies `cleaned_data['placeholder']` onto
`form.instance` before any save; `hcache` is the `_placeholders_by_slot`
invariant (the cache starts empty and only ever stores a placeholder of
the parent under its own slot). -/
theorem set_placeholder_spec (fs : FormsetState) (f : FormState) (commit : Bool)
    (hslot : f.placeholder_slot ≠ "")
    (hsync : f.instance_placeholder = f.cleaned_placeholder)
    (hcache : CacheConsistent fs) :
    save_new fs f commit = set_placeholder_id fs f ∧
    save_existing fs f true = set_placeholder_id fs f ∧
    ((f.cleaned_placeholder = none ∨
        (∃ p, f.cleaned_placeholder = some p ∧ p.slot ≠ f.placeholder_slot)) →
      ∀ q fs2, resolveSlot fs f.placeholder_slot = Except.ok (q, fs2) →
        set_placeholder_id fs f =
          Except.ok ({ f with cleaned_placeholder := some q, instance_placeholder := some q },
            fs2) ∧
        q.slot = f.placeholder_slot ∧ q ∈ fs.parent_placeholders) ∧
    (∀ p, f.cleaned_placeholder = some p → p.slot = f.placeholder_slot →
      p.id ∈ fs.deleted_placeholders →
      set_placeholder_id fs f =
        Except.ok ({ f with cleaned_placeholder := none, instance_placeholder := none }, fs)) ∧
    (∀ p, f.cleaned_placeholder = some p → p.slot = f.placeholder_slot →
      p.id ∉ fs.deleted_placeholders →
      set_placeholder_id fs f = Except.ok (f, fs)) := by
  refine ⟨rfl, rfl, ?_, ?_, ?_⟩
  · intro hcl q fs2 hres
    refine ⟨?_, resolveSlot_spec fs f.placeholder_slot hcache q fs2 hres⟩
    rcases hcl with hcl | ⟨p, hp, hps⟩
    · simp [set_placeholder_id, if_neg hslot, hcl, hres]
    · simp [set_placeholder_id, if_neg hslot, hp, hps, hres]
  · intro p hp hps hdel
    simp [set_placeholder_id, if_neg hslot, hp, hps, instanceInDeleted, hsync, hdel]
  · intro p hp hps hdel
    simp [set_placeholder_id, if_neg hslot, hp, hps, instanceInDeleted, hsync, hdel]

/-- C3 witness: a form whose selected placeholder already has the right
slot and is not deleted is kept unchanged. -/
theorem set_placeholder_spec_witness :
    set_placeholder_id
      ⟨[⟨1, "main"⟩, ⟨2, "sidebar"⟩], [], [9]⟩
      ⟨"main", some ⟨1, "main"⟩, some ⟨1, "main"⟩⟩ =
      Except.ok (⟨"main", some ⟨1, "main"⟩, some ⟨1, "main"⟩⟩,
        ⟨[⟨1, "main"⟩, ⟨2, "sidebar"⟩], [], [9]⟩) :=
  (set_placeholder_spec ⟨[⟨1, "main"⟩, ⟨2, "sidebar"⟩], [], [9]⟩
    ⟨"main", some ⟨1, "main"⟩, some ⟨1, "main"⟩⟩ true
    (by decide) rfl (by decide)).2.2.2.2 ⟨1, "main"⟩ rfl rfl (by decide)
